import Mathlib

/-!
Verification of the node-gallery resource-monitoring subsystem.

This file gives a shallow embedding of the repository's core code:

* `ResourceMonitor.getContent` (src/resource_monitor.ts, lines 73-88) — the
  generic hash-based staleness check with cached derived content;
* `WebpageResourceMonitor.getContent` and its re-render cooldown
  (src/resource_monitor.ts, lines 159-192);
* `WebpageResourceMonitor.transformResourceToContent` — the section-grouping
  logic of the webpage render (src/resource_monitor.ts, lines 194-233,
  240-307), projected onto the section structure it builds in the DOM;
* `SitemapResourceMonitor` (src/resource_monitor.ts, lines 332-371);
* `getImageCachePath` and `compressAndGetImageCachePath`
  (src/service.ts, lines 75-82 and 124-137).

Modelling conventions: JavaScript strings are Lean `String`s (or `List Char`
where fine-grained character reasoning is needed); mutable instance fields
become explicit state records threaded through calls; a method that can throw
returns `Except`; invocation counts of `getResource` / the transform / the
external compressor are returned alongside results so that frame conditions
("the transform is not invoked") are expressible.  The `hasha` hash and
`JSON.parse` are external libraries (not part of this repository); per the
spec they are modelled abstractly: the generic monitor is parameterised over
its `computeHash`/`transform` functions, and concrete instantiations use
simple deterministic stand-ins.
-/

deriving instance DecidableEq for Except

namespace NodeGallery

/-- The mutable fields of a `ResourceMonitor` instance:
`protected hash ?: string` and `protected content ?: C`
(src/resource_monitor.ts, lines 40 and 46). -/
structure MonitorState (C : Type) where
  hash : Option String
  content : Option C
deriving DecidableEq

/-- The monitor-specific operations of a concrete `ResourceMonitor<R, C>`:
`getResource` (which reads external state and may throw an I/O error),
`computeHash`, and `transformResourceToContent` (which may throw).
`getResource` is modelled as the value it would currently return —
an `Except` capturing the possible I/O failure. -/
structure MonitorOps (R C E : Type) where
  getResource : Except E R
  computeHash : R → String
  transform : R → Except E C

/-- The observable outcome of one `getContent` call: the value returned
(or the exception propagated), the monitor state afterwards, and how many
times `getResource` and `transformResourceToContent` ran during the call.
The returned value is an `Option C` because the source returns
`this.content as C`, which is `undefined` when no content exists. -/
structure CallResult (C E : Type) where
  result : Except E (Option C)
  state : MonitorState C
  resourceCalls : Nat
  transformCalls : Nat
deriving DecidableEq

/-- `ResourceMonitor.getContent(checkUpdate)` (src/resource_monitor.ts,
lines 73-88):

```
if (this.content === undefined) { checkUpdate = true }
if (checkUpdate) {
    const resource: R = this.getResource()
    const newHash = this.computeHash(resource)
    if (newHash !== this.hash) {
        this.hash = newHash
        this.content = this.transformResourceToContent(resource)
    }
}
return this.content as C
```

On a transform throw the hash assignment has already happened, mirroring the
statement order of the source. -/
def getContent (ops : MonitorOps R C E) (st : MonitorState C) (checkUpdate : Bool) :
    CallResult C E :=
  let cu := if st.content.isNone then true else checkUpdate
  if cu then
    match ops.getResource with
    | .error e => ⟨.error e, st, 1, 0⟩
    | .ok r =>
      let newHash := ops.computeHash r
      if some newHash ≠ st.hash then
        match ops.transform r with
        | .error e => ⟨.error e, ⟨some newHash, st.content⟩, 1, 1⟩
        | .ok c => ⟨.ok (some c), ⟨some newHash, some c⟩, 1, 1⟩
      else
        ⟨.ok st.content, st, 1, 0⟩
  else
    ⟨.ok st.content, st, 0, 0⟩

/-- A concrete monitor instantiation used to evaluate the generic theorems:
resource and content are strings, the fingerprint is the resource itself
(a collision-free stand-in for the external `hasha` hash), and the transform
tags the resource. -/
def testOps : MonitorOps String String String :=
  ⟨.ok "res", fun s => s, fun s => .ok ("T:" ++ s)⟩

/-- Like `testOps` but with a transform that always throws. -/
def testErrOps : MonitorOps String String String :=
  ⟨.ok "res", fun s => s, fun s => .error ("E:" ++ s)⟩

/-- The state of a `WebpageResourceMonitor`: the inherited monitor fields plus
`private rerenderReady: boolean = true` (src/resource_monitor.ts, line 161).
The 1000 ms `setInterval` timer installed in the constructor (lines 168-170)
is modelled by the `rerenderTick` transition. -/
structure WebpageState (C : Type) where
  inner : MonitorState C
  rerenderReady : Bool
deriving DecidableEq

/-- Outcome of one `WebpageResourceMonitor.getContent` call. -/
structure WebpageCallResult (C E : Type) where
  result : Except E (Option C)
  state : WebpageState C
  resourceCalls : Nat
  transformCalls : Nat
deriving DecidableEq

/-- `WebpageResourceMonitor.getContent(checkUpdate)` (src/resource_monitor.ts,
lines 185-192):

```
if (checkUpdate && this.rerenderReady) {
    this.rerenderReady = false
    return super.getContent()
}
return super.getContent(false)
```

`super.getContent()` defaults `checkUpdate` to `true`. -/
def webpageGetContent (ops : MonitorOps R C E) (st : WebpageState C)
    (checkUpdate : Bool) : WebpageCallResult C E :=
  if checkUpdate && st.rerenderReady then
    let r := getContent ops st.inner true
    ⟨r.result, ⟨r.state, false⟩, r.resourceCalls, r.transformCalls⟩
  else
    let r := getContent ops st.inner false
    ⟨r.result, ⟨r.state, st.rerenderReady⟩, r.resourceCalls, r.transformCalls⟩

/-- The cooldown timer firing: `setInterval(() => { this.rerenderReady = true },
1000)` (src/resource_monitor.ts, lines 168-170). -/
def rerenderTick (st : WebpageState C) : WebpageState C :=
  ⟨st.inner, true⟩

/-- The resource snapshot of the webpage monitor
(`WebpageHashMonitorResource`, src/resource_monitor.ts, lines 148-152). -/
structure WebpageHashMonitorResource where
  settings : String
  indexHtml : String
  imagePaths : String
deriving DecidableEq

/-- `Object.entries(resource).map(([key, value]) => key + ":" + value)` as used
by `WebpageResourceMonitor.computeHash` (src/resource_monitor.ts, line 174). -/
def webpageEntryStrings (r : WebpageHashMonitorResource) : List String :=
  ["settings:" ++ r.settings, "indexHtml:" ++ r.indexHtml,
    "imagePaths:" ++ r.imagePaths]

/-- Modelled from the spec: `hashSync` from the external `hasha` library
applied to a list of strings — "deterministic content fingerprint of an
arbitrary string or ordered sequence of strings" (spec section 2).  The model
concatenates the strings with a separator, which is deterministic as the spec
requires; the actual digest algorithm is irrelevant to every claim. -/
def modelHashList (l : List String) : String :=
  String.intercalate "|" l

/-- A concrete webpage-monitor instantiation for evaluating the cooldown
claims: a fixed environment snapshot, the `computeHash` of
src/resource_monitor.ts line 174 over the modelled hash, and a transform
producing a fixed rendered document (the render itself is modelled separately
by `transformWebpage`; its value is irrelevant to the cooldown control
flow). -/
def webpageTestOps : MonitorOps WebpageHashMonitorResource String String :=
  ⟨.ok ⟨"settingsText", "templateHtml", "a.jpg;b.jpg"⟩,
    fun r => modelHashList (webpageEntryStrings r),
    fun _ => .ok "renderedHtml"⟩

/-- The settings acquisition at the top of the webpage render:
`const settings: Settings = settingsMonitor.getContent()`
(src/resource_monitor.ts, line 201).  The omitted argument defaults to
`checkUpdate = true` (line 73). -/
def renderSettingsFetch (ops : MonitorOps R C E) (st : MonitorState C) :
    CallResult C E :=
  getContent ops st true

/-- The settings read inside `create$section`:
`const settings = settingsMonitor.getContent(false)`
(src/resource_monitor.ts, line 246). -/
def sectionSettingsFetch (ops : MonitorOps R C E) (st : MonitorState C) :
    CallResult C E :=
  getContent ops st false

/-- Modelled from the spec: `hashSync` of the external `hasha` library on a
single string — a deterministic, collision-free content fingerprint (spec
sections 2 and 3).  Modelled as the identity encoding, which is deterministic
and collision-free as the spec demands. -/
def modelHash (s : String) : String := s

/-- Modelled from the spec: `JSON.parse` (an external platform builtin) as
used by `SettingsMonitor.transformResourceToContent`
(src/resource_monitor.ts, line 141) — "transform = parse-into-structured-
config" (spec section 4.2).  The parsed value is kept opaque; the model tags
the raw text. -/
def settingsParseModel (s : String) : String := "parsed:" ++ s

/-- A concrete Settings monitor whose settings file currently reads
"new settings text". -/
def settingsTestOps : MonitorOps String String String :=
  ⟨.ok "new settings text", modelHash, fun s => .ok (settingsParseModel s)⟩

/-- A Settings monitor state that cached "old settings text" before the file
changed. -/
def settingsTestState : MonitorState String :=
  ⟨some (modelHash "old settings text"),
    some (settingsParseModel "old settings text")⟩

/-- `Section` from src/settings.ts (lines 28-36): title, description and the
included image paths. -/
structure Section where
  title : String
  description : String
  includes : List String
deriving DecidableEq

/-- `Settings` from src/settings.ts (lines 5-26).  The `sections` object is
modelled as an insertion-ordered association list, matching the
`Object.entries` iteration order used by the render
(src/resource_monitor.ts, line 219). -/
structure Settings where
  siteName : String
  port : Nat
  exclude : List String
  featured : List String
  sections : List (String × Section)
  cacheSz : List String
deriving DecidableEq

/-- The observable shape of one gallery section produced by `create$section`
(src/resource_monitor.ts, lines 240-307), projected onto the data the claims
are about: the section name (the DOM id is `<name>-section`), the header
title and description, and the image paths rendered into the section's image
grid. -/
structure RenderedSection where
  name : String
  title : String
  description : String
  images : List String
deriving DecidableEq

def emptyRenderedSection : RenderedSection := ⟨"", "", "", []⟩

/-- `create$section(document, section, sectionName, imagePaths)`
(src/resource_monitor.ts, lines 240-257): the images actually appended are
`section.includes.filter(image => existedImagePaths.includes(image))`
(line 302 in `create$sectionImages`). -/
def createSection (collected : List String) (name title description : String)
    (includes : List String) : RenderedSection :=
  ⟨name, title, description, includes.filter (fun p => collected.contains p)⟩

/-- `WebpageResourceMonitor.transformResourceToContent`
(src/resource_monitor.ts, lines 194-233), projected onto the sequence of
sections appended to the `gallery` element: first the Featured section
(includes = `settings.featured`), then each configured section in
declaration order, finally the global Photos section whose includes are the
collected paths not present in `imagePathSet` (the featured paths plus every
configured section's includes).  The two `collectImagePaths()` calls of the
source (lines 204 and 229) are modelled as the same snapshot `collected`. -/
def transformWebpage (settings : Settings) (collected : List String) :
    List RenderedSection :=
  let claimed :=
    settings.featured ++ (settings.sections.map (fun ns => ns.2.includes)).flatten
  createSection collected "featured" "Featured:" "" settings.featured ::
    settings.sections.map
      (fun ns => createSection collected ns.1 ns.2.title ns.2.description
        ns.2.includes) ++
    [createSection collected "global" "Photos:" ""
      (collected.filter (fun p => !(claimed.contains p)))]

/-- JavaScript `String.prototype.split` with a single-character separator,
on the Lean model of JS strings.  In particular `"".split(sep)` is `[""]`. -/
def jsSplit (sep : Char) (s : String) : List String :=
  (s.data.splitOn sep).map (fun d => ⟨d⟩)

/-- JavaScript `Array.prototype.join` with a single-character separator. -/
def jsJoin (sep : Char) (l : List String) : String :=
  ⟨[sep].intercalate (l.map String.data)⟩

/-- Concatenation of a list of strings (used to state what the sitemap
string-building folds produce). -/
def joinStrList : List String → String
  | [] => ""
  | s :: r => s ++ joinStrList r

/-- The static sitemap page list `SITEMAP` (src/constants.ts, lines 24-30). -/
def SITEMAP : List String :=
  ["", "sitemap.xml", "robots.txt", "favicon.ico", "index.css"]

/-- The fixed XML preamble of the sitemap
(src/resource_monitor.ts, lines 352-354). -/
def sitemapPreamble : String :=
  "<?xml version=\"1.0\" encoding=\"UTF-8\"?>\n" ++
    "<urlset xmlns=\"http://www.sitemaps.org/schemas/sitemap/0.9\">"

/-- One `<url>` entry as appended by the sitemap transform
(src/resource_monitor.ts, lines 356-357 and 362-364):
`loc = https://<siteName>/<url>` followed by `<lastmod>` with the current
date. -/
def urlEntry (siteName nowDate url : String) : String :=
  "<url>\n<loc>https://" ++ siteName ++ "/" ++ url ++ "</loc>\n<lastmod>" ++
    nowDate ++ "</lastmod>\n</url>\n"

/-- `SitemapResource` (src/resource_monitor.ts, lines 332-334). -/
structure SitemapResource where
  imagePaths : String
deriving DecidableEq

/-- `SitemapResourceMonitor.getResource` (src/resource_monitor.ts,
lines 343-347): `collectImagePaths().join(';')`, parameterised by the
collected image path snapshot. -/
def sitemapGetResource (collected : List String) : SitemapResource :=
  ⟨jsJoin ';' collected⟩

/-- `SitemapResourceMonitor.transformResourceToContent`
(src/resource_monitor.ts, lines 349-370).  The external reads
`getSettings()['site-name']` and `new Date(Date.now()).toISOString()
.split('T')[0]` are modelled as the parameters `siteName` and `nowDate`. -/
def sitemapTransform (resource : SitemapResource) (siteName nowDate : String) :
    String :=
  let afterStatic :=
    SITEMAP.foldl (fun acc url => acc ++ urlEntry siteName nowDate url)
      sitemapPreamble
  let afterImages :=
    (jsSplit ';' resource.imagePaths).foldl
      (fun acc imagePath => acc ++ urlEntry siteName nowDate ("image/" ++ imagePath))
      afterStatic
  afterImages ++ "</urlset>"

/-! For the image cache service the claims need character-level reasoning
about path strings, so JS strings are modelled as `List Char` here. -/

/-- Node's `path.dirname` on normalised relative POSIX paths (no duplicate
or trailing separators): the path minus its last `/`-separated component,
or `"."` when there is no directory part. -/
def dirnameM (p : List Char) : List Char :=
  if (p.splitOn '/').length ≤ 1 then ['.']
  else ['/'].intercalate (p.splitOn '/').dropLast

/-- Node's `path.basename` on normalised relative POSIX paths: the last
`/`-separated component. -/
def basenameM (p : List Char) : List Char :=
  (p.splitOn '/').getLastD []

/-- `const dirString: string = path.dirname(imagePath).split('/').join('_')`
(src/service.ts, line 76). -/
def dirString (p : List Char) : List Char :=
  ['_'].intercalate ((dirnameM p).splitOn '/')

/-- `dirString.startsWith('.') ? dirString.substring(1) : dirString`
(src/service.ts, lines 77-78). -/
def dirStringWithoutLeadingDot (p : List Char) : List Char :=
  if (dirString p).head? = some '.' then (dirString p).tail else dirString p

/-- `getImageCachePath(imagePath, size)` (src/service.ts, lines 75-82):
`path.join(CACHE_DIR, dirStringWithoutLeadingDot + "_" + size + "_" +
fileName)`.  `CACHE_DIR` is an absolute path fixed at deployment
(src/constants.ts, line 13) and is modelled as the parameter `cacheDir`;
`path.join` of an absolute directory and a separator-free file name is
concatenation with one `/`. -/
def getImageCachePath (cacheDir p sz : List Char) : List Char :=
  cacheDir ++ '/' ::
    (dirStringWithoutLeadingDot p ++ '_' :: (sz ++ '_' :: basenameM p))

/-- A canonical relative image path: its `/`-separated components are all
nonempty, contain no `'_'` and do not start with `'.'`. -/
def canonicalPath (p : List Char) : Prop :=
  ∀ seg ∈ p.splitOn '/', seg ≠ [] ∧ ('_' : Char) ∉ seg ∧ seg.head? ≠ some '.'

instance canonicalPath_decidable (p : List Char) :
    Decidable (canonicalPath p) := by
  unfold canonicalPath
  infer_instance

/-- The component list that `getImageCachePath` joins with `'_'` after the
cache directory: the flattened directory components (one empty component for
paths without a directory part), the size, and the file name.  Proof-side
decomposition used to establish injectivity. -/
def encodeList (p sz : List Char) : List (List Char) :=
  if (p.splitOn '/').length ≤ 1 then [[], sz, basenameM p]
  else (p.splitOn '/').dropLast ++ [sz, basenameM p]

/-- `compressAndGetImageCachePath(imagePath, size)` (src/service.ts,
lines 124-137) together with `compressImage` (lines 96-114): the filesystem
is modelled as the list of existing file paths, `fs.existsSync` as list
membership, and the external `jpegoptim` invocation as creating the cache
file (the shell output redirection creates the file) — the returned `Nat`
counts how many times the external compressor was invoked during the call.
The function returns `imageCachePath.substring(CACHE_DIR.length + 1)`. -/
def compressAndGetImageCachePath (cacheDir : List Char)
    (files : List (List Char)) (p sz : List Char) :
    List Char × List (List Char) × Nat :=
  let imageCachePath := getImageCachePath cacheDir p sz
  if imageCachePath ∈ files then
    (imageCachePath.drop (cacheDir.length + 1), files, 0)
  else
    (imageCachePath.drop (cacheDir.length + 1), imageCachePath :: files, 1)

end NodeGallery

namespace NodeGallery

theorem getContent_false_some {R C E : Type} (ops : MonitorOps R C E)
    (st : MonitorState C) (c : C) (h : st.content = some c) :
    getContent ops st false = ⟨.ok (some c), st, 0, 0⟩ := by
  simp [getContent, h]

theorem getContent_forced {R C E : Type} (ops : MonitorOps R C E)
    (st : MonitorState C) (h : st.content = none) (cu : Bool) :
    getContent ops st cu = getContent ops st true := by
  simp [getContent, h]

theorem getContent_true_match {R C E : Type} (ops : MonitorOps R C E)
    (st : MonitorState C) (r : R) (hr : ops.getResource = .ok r)
    (hh : st.hash = some (ops.computeHash r)) :
    getContent ops st true = ⟨.ok st.content, st, 1, 0⟩ := by
  simp [getContent, hr, hh]

theorem getContent_true_mismatch_ok {R C E : Type} (ops : MonitorOps R C E)
    (st : MonitorState C) (r : R) (c : C) (hr : ops.getResource = .ok r)
    (hh : st.hash ≠ some (ops.computeHash r)) (ht : ops.transform r = .ok c) :
    getContent ops st true =
      ⟨.ok (some c), ⟨some (ops.computeHash r), some c⟩, 1, 1⟩ := by
  have hne : some (ops.computeHash r) ≠ st.hash := fun h => hh h.symm
  simp [getContent, hr, hne, ht]

theorem getContent_true_mismatch_err {R C E : Type} (ops : MonitorOps R C E)
    (st : MonitorState C) (r : R) (e : E) (hr : ops.getResource = .ok r)
    (hh : st.hash ≠ some (ops.computeHash r)) (ht : ops.transform r = .error e) :
    getContent ops st true =
      ⟨.error e, ⟨some (ops.computeHash r), st.content⟩, 1, 1⟩ := by
  have hne : some (ops.computeHash r) ≠ st.hash := fun h => hh h.symm
  simp [getContent, hr, hne, ht]

/-- C1: for every resource monitor, `getContent(true)` (and any `getContent`
call when no Content has ever been produced, since the first call is forced
to check) fetches the current Resource and computes its Fingerprint; on a
mismatch with the stored Fingerprint (or when none is stored) it stores the
new Fingerprint and recomputes Content via the transform; on a match it
returns the previously cached Content unchanged and the transform is not
invoked again. -/
theorem resourceMonitor_getContent_spec {R C E : Type} (ops : MonitorOps R C E)
    (st : MonitorState C) (r : R) (c : C)
    (hr : ops.getResource = .ok r) (ht : ops.transform r = .ok c) :
    (st.hash ≠ some (ops.computeHash r) →
      getContent ops st true =
        ⟨.ok (some c), ⟨some (ops.computeHash r), some c⟩, 1, 1⟩) ∧
    (st.hash = some (ops.computeHash r) →
      getContent ops st true = ⟨.ok st.content, st, 1, 0⟩) ∧
    (st.content = none → ∀ cu : Bool, getContent ops st cu = getContent ops st true) := by
  refine ⟨fun hh => ?_, fun hh => ?_, fun hc cu => ?_⟩
  · exact getContent_true_mismatch_ok ops st r c hr hh ht
  · exact getContent_true_match ops st r hr hh
  · exact getContent_forced ops st hc cu

/-- Witness for C1: evaluating the spec on the concrete `testOps` monitor
starting from the empty state. -/
theorem resourceMonitor_getContent_spec_witness :
    getContent testOps ⟨none, none⟩ true =
      ⟨.ok (some "T:res"), ⟨some "res", some "T:res"⟩, 1, 1⟩ :=
  (resourceMonitor_getContent_spec testOps ⟨none, none⟩ "res" "T:res" rfl rfl).1
    (by decide)

/-- C6: for every resource monitor that has already produced Content,
`getContent(false)` returns the cached Content without invoking
`getResource` or `transformResourceToContent`, and leaves the stored
Fingerprint and Content unchanged. -/
theorem resourceMonitor_getContent_false_frame {R C E : Type}
    (ops : MonitorOps R C E) (st : MonitorState C) (c : C)
    (h : st.content = some c) :
    getContent ops st false = ⟨.ok (some c), st, 0, 0⟩ :=
  getContent_false_some ops st c h

/-- Witness for C6: a monitor holding cached content serves it with zero
resource reads and zero transform invocations. -/
theorem resourceMonitor_getContent_false_frame_witness :
    getContent testOps ⟨some "res", some "T:res"⟩ false =
      ⟨.ok (some "T:res"), ⟨some "res", some "T:res"⟩, 0, 0⟩ :=
  resourceMonitor_getContent_false_frame testOps ⟨some "res", some "T:res"⟩
    "T:res" rfl

/-- C7: if the transform throws during a staleness check that detected a
Fingerprint mismatch, the stored Fingerprint has already been updated while
the stored Content keeps its previous value (no rollback); a later
`getContent(true)` on the unchanged Resource then serves that stale Content
without recomputing. -/
theorem resourceMonitor_transform_throw_no_rollback {R C E : Type}
    (ops : MonitorOps R C E) (st : MonitorState C) (r : R) (e : E)
    (hr : ops.getResource = .ok r)
    (hh : st.hash ≠ some (ops.computeHash r))
    (ht : ops.transform r = .error e) :
    getContent ops st true =
      ⟨.error e, ⟨some (ops.computeHash r), st.content⟩, 1, 1⟩ ∧
    getContent ops ⟨some (ops.computeHash r), st.content⟩ true =
      ⟨.ok st.content, ⟨some (ops.computeHash r), st.content⟩, 1, 0⟩ := by
  constructor
  · exact getContent_true_mismatch_err ops st r e hr hh ht
  · by_cases hc : st.content = none
    · rw [hc]
      exact getContent_true_match ops ⟨some (ops.computeHash r), none⟩ r hr rfl
    · exact getContent_true_match ops ⟨some (ops.computeHash r), st.content⟩ r hr rfl

/-- Witness for C7: a monitor with stale hash and cached content whose
transform throws ends up with the new hash and the old content, and the next
check serves the old content without a transform call. -/
theorem webpageGetContent_flag (ops : MonitorOps R C E) (st : WebpageState C)
    (h : st.rerenderReady = true) :
    webpageGetContent ops st true =
      ⟨(getContent ops st.inner true).result,
        ⟨(getContent ops st.inner true).state, false⟩,
        (getContent ops st.inner true).resourceCalls,
        (getContent ops st.inner true).transformCalls⟩ := by
  simp [webpageGetContent, h]

theorem webpageGetContent_noflag (ops : MonitorOps R C E) (st : WebpageState C)
    (cu : Bool) (h : cu = false ∨ st.rerenderReady = false) :
    webpageGetContent ops st cu =
      ⟨(getContent ops st.inner false).result,
        ⟨(getContent ops st.inner false).state, st.rerenderReady⟩,
        (getContent ops st.inner false).resourceCalls,
        (getContent ops st.inner false).transformCalls⟩ := by
  rcases h with h | h <;> simp [webpageGetContent, h]

theorem getContent_true_resourceCalls (ops : MonitorOps R C E)
    (st : MonitorState C) : (getContent ops st true).resourceCalls = 1 := by
  unfold getContent
  rcases hr : ops.getResource with e | r
  · simp [hr]
  · by_cases hh : some (ops.computeHash r) ≠ st.hash
    · rcases ht : ops.transform r with e1 | c1
      · simp [hr, ht, hh]
      · simp [hr, ht, hh]
    · simp [hr, hh]

/-- C2 (counterexample to the claim as stated): on a fresh Webpage monitor
(no Content ever produced) a `getContent(false)` call does perform a
staleness check — the inherited first-call forcing fetches the Resource and
computes its Fingerprint even though the caller passed `checkUpdate=false`
(and the flag is left untouched), contradicting "performs the staleness
check only when the caller passed checkUpdate=true AND the rerenderReady
flag is currently true". -/
theorem webpage_cooldown_counterexample :
    (webpageGetContent webpageTestOps ⟨⟨none, none⟩, true⟩ false).resourceCalls = 1 ∧
    (webpageGetContent webpageTestOps ⟨⟨none, none⟩, true⟩ false).state.rerenderReady
      = true :=
  ⟨rfl, rfl⟩

/-- C2 (amended): the Webpage monitor performs the staleness check exactly
when the caller passed `checkUpdate=true` and `rerenderReady` is true, or
when no Content has ever been produced (first-call forcing); after a
flag-gated check it immediately sets the flag false (even if the check found
nothing stale); the flag is set back to true by the 1000 ms timer tick.
Consequently — for a monitor whose stored state is consistent (a stored
Fingerprint implies a stored Content) — of any two `getContent(true)` calls
within one cooldown window, at most one performs a staleness check, and a
call right after a timer tick performs a new check. -/
theorem webpage_cooldown_spec {R C E : Type} (ops : MonitorOps R C E)
    (st st2 : WebpageState C) (cu : Bool) (r : R) (c : C)
    (hr : ops.getResource = .ok r) (ht : ops.transform r = .ok c)
    (hcons : st.inner.hash = none ∨ st.inner.content ≠ none) :
    ((webpageGetContent ops st cu).resourceCalls = 1 ↔
      ((cu = true ∧ st.rerenderReady = true) ∨ st.inner.content = none)) ∧
    (cu = true → st.rerenderReady = true →
      (webpageGetContent ops st cu).state.rerenderReady = false) ∧
    ((webpageGetContent ops st true).resourceCalls +
      (webpageGetContent ops (webpageGetContent ops st true).state true).resourceCalls
        ≤ 1) ∧
    ((webpageGetContent ops (rerenderTick st2) true).resourceCalls = 1 ∧
      (webpageGetContent ops (rerenderTick st2) true).state.rerenderReady = false) := by
  have hsecond : ∀ st1 : WebpageState C, st1.rerenderReady = false →
      st1.inner.content ≠ none →
      (webpageGetContent ops st1 true).resourceCalls = 0 := by
    intro st1 hready hc
    rcases hc1 : st1.inner.content with _ | c1
    · exact absurd hc1 hc
    · rw [webpageGetContent_noflag ops st1 true (Or.inr hready)]
      simp [getContent_false_some ops st1.inner c1 hc1]
  refine ⟨?_, ?_, ?_, ?_⟩
  · by_cases hready : st.rerenderReady = true
    · by_cases hcu : cu = true
      · rw [hcu, webpageGetContent_flag ops st hready]
        simp [getContent_true_resourceCalls, hcu, hready]
      · have hcu0 : cu = false := by
          cases cu
          · rfl
          · exact absurd rfl hcu
        rw [webpageGetContent_noflag ops st cu (Or.inl hcu0)]
        rcases hc : st.inner.content with _ | c0
        · rw [getContent_forced ops st.inner hc false]
          simp [getContent_true_resourceCalls, hc, hcu0]
        · simp [getContent_false_some ops st.inner c0 hc, hc, hcu0]
    · have hready0 : st.rerenderReady = false := by
        cases h : st.rerenderReady
        · rfl
        · exact absurd h hready
      rw [webpageGetContent_noflag ops st cu (Or.inr hready0)]
      rcases hc : st.inner.content with _ | c0
      · rw [getContent_forced ops st.inner hc false]
        simp [getContent_true_resourceCalls, hc, hready0]
      · simp [getContent_false_some ops st.inner c0 hc, hc, hready0]
  · intro hcu hready
    rw [hcu, webpageGetContent_flag ops st hready]
  · by_cases hready : st.rerenderReady = true
    · rw [webpageGetContent_flag ops st hready]
      have hc1 : (getContent ops st.inner true).state.content ≠ none := by
        by_cases hh : st.inner.hash = some (ops.computeHash r)
        · rw [getContent_true_match ops st.inner r hr hh]
          rcases hcons with hcons | hcons
          · rw [hcons] at hh
            exact absurd hh (by simp)
          · exact hcons
        · rw [getContent_true_mismatch_ok ops st.inner r c hr hh ht]
          simp
      have h2 := hsecond ⟨(getContent ops st.inner true).state, false⟩ rfl hc1
      rw [h2, getContent_true_resourceCalls]
    · have hready0 : st.rerenderReady = false := by
        cases h : st.rerenderReady
        · rfl
        · exact absurd h hready
      rw [webpageGetContent_noflag ops st true (Or.inr hready0)]
      rcases hc : st.inner.content with _ | c0
      · have hh : st.inner.hash = none := by
          rcases hcons with hcons | hcons
          · exact hcons
          · exact absurd hc hcons
        rw [getContent_forced ops st.inner hc false,
          getContent_true_mismatch_ok ops st.inner r c hr (by rw [hh]; simp) ht]
        have h2 := hsecond ⟨⟨some (ops.computeHash r), some c⟩, st.rerenderReady⟩
          (by simpa using hready0) (by simp)
        simp only [h2]
        omega
      · rw [getContent_false_some ops st.inner c0 hc]
        have h2 := hsecond ⟨st.inner, st.rerenderReady⟩ (by simpa using hready0)
          (by rw [hc]; simp)
        have hst : (⟨st.inner, st.rerenderReady⟩ : WebpageState C) = st := rfl
        rw [hst] at h2
        simp only [h2]
        omega
  · rw [webpageGetContent_flag ops (rerenderTick st2) rfl]
    exact ⟨getContent_true_resourceCalls ops (rerenderTick st2).inner, rfl⟩

/-- Witness for C2 (amended): evaluating the cooldown spec on the concrete
webpage monitor instantiation in its initial state. -/
theorem webpage_cooldown_spec_witness :
    (webpageGetContent webpageTestOps ⟨⟨none, none⟩, true⟩ true).resourceCalls = 1 := by
  have h := webpage_cooldown_spec webpageTestOps ⟨⟨none, none⟩, true⟩
    ⟨⟨none, none⟩, true⟩ true ⟨"settingsText", "templateHtml", "a.jpg;b.jpg"⟩
    "renderedHtml" rfl rfl (Or.inl rfl)
  exact h.1.mpr (Or.inl ⟨rfl, rfl⟩)

theorem resourceMonitor_transform_throw_no_rollback_witness :
    getContent testErrOps ⟨some "old", some "T:old"⟩ true =
      ⟨.error "E:res", ⟨some "res", some "T:old"⟩, 1, 1⟩ ∧
    getContent testErrOps ⟨some "res", some "T:old"⟩ true =
      ⟨.ok (some "T:old"), ⟨some "res", some "T:old"⟩, 1, 0⟩ :=
  resourceMonitor_transform_throw_no_rollback testErrOps
    ⟨some "old", some "T:old"⟩ "res" "E:res" rfl (by decide) rfl

/-- C8 (counterexample to the claim as stated): the webpage render's
settings acquisition (`settingsMonitor.getContent()`, line 201) defaults to
`checkUpdate = true`, so when the settings file changed since the Settings
Monitor's last check the render DOES re-trigger the staleness check: the
Settings Monitor's stored Fingerprint and Content are replaced and the parse
transform runs again — contradicting "without re-triggering its staleness
check ... the Settings Monitor's stored Fingerprint and Content are
unchanged by the render". -/
theorem webpage_render_settings_counterexample :
    (renderSettingsFetch settingsTestOps settingsTestState).state ≠ settingsTestState ∧
    (renderSettingsFetch settingsTestOps settingsTestState).transformCalls = 1 ∧
    (renderSettingsFetch settingsTestOps settingsTestState).resourceCalls = 1 := by
  refine ⟨?_, rfl, rfl⟩
  decide

/-- C8 (amended): the webpage render obtains Settings through
`settingsMonitor.getContent()` with the defaulted `checkUpdate = true`, so
it performs a staleness check on the Settings Monitor: when the settings
resource's fingerprint differs from the stored one, the Settings Monitor's
Fingerprint and Content are updated and the parse transform runs; when it is
unchanged, the stored Fingerprint and Content stay as they are.  Only the
per-section default-size read (`getContent(false)`, line 246) reuses the
currently held Settings and never touches the monitor's state. -/
theorem webpage_render_settings_spec {R C E : Type} (ops : MonitorOps R C E)
    (st : MonitorState C) (r : R) (c : C)
    (hr : ops.getResource = .ok r) (ht : ops.transform r = .ok c) :
    (st.hash ≠ some (ops.computeHash r) →
      renderSettingsFetch ops st =
        ⟨.ok (some c), ⟨some (ops.computeHash r), some c⟩, 1, 1⟩) ∧
    (st.hash = some (ops.computeHash r) →
      renderSettingsFetch ops st = ⟨.ok st.content, st, 1, 0⟩) ∧
    (∀ c0 : C, st.content = some c0 →
      sectionSettingsFetch ops st = ⟨.ok (some c0), st, 0, 0⟩) := by
  refine ⟨fun hh => ?_, fun hh => ?_, fun c0 hc => ?_⟩
  · exact getContent_true_mismatch_ok ops st r c hr hh ht
  · exact getContent_true_match ops st r hr hh
  · exact getContent_false_some ops st c0 hc

/-- Witness for C8 (amended): the concrete Settings monitor with a changed
settings file ends up re-hashed and re-parsed by the render's fetch. -/
theorem webpage_render_settings_spec_witness :
    renderSettingsFetch settingsTestOps settingsTestState =
      ⟨.ok (some "parsed:new settings text"),
        ⟨some "new settings text", some "parsed:new settings text"⟩, 1, 1⟩ :=
  (webpage_render_settings_spec settingsTestOps settingsTestState
    "new settings text" "parsed:new settings text" rfl rfl).1 (by decide)

theorem forall2_map_self {α β : Type} {P : β → α → Prop} (f : α → β) :
    ∀ l : List α, (∀ x ∈ l, P (f x) x) → List.Forall₂ P (l.map f) l := by
  intro l
  induction l with
  | nil => intro _; exact List.Forall₂.nil
  | cons x xs ih =>
    intro h
    exact List.Forall₂.cons (h x (by simp)) (ih fun y hy => h y (by simp [hy]))

theorem getLastD_append_singleton {α : Type} :
    ∀ (l : List α) (c d : α), (l ++ [c]).getLastD d = c := by
  intro l
  induction l with
  | nil => intro c d; rfl
  | cons x xs ih =>
    intro c d
    rw [List.cons_append, List.getLastD_cons]
    exact ih c x

/-- C3 (counterexample to the claim as stated): a featured path that is not
among the collected image paths is silently dropped from the Featured
section (`create$sectionImages` filters by the collected list, line 302), so
the Featured section does not contain "the paths listed in featured". -/
theorem webpage_sections_counterexample :
    transformWebpage ⟨"", 0, [], ["z.jpg"], [], []⟩ ["a.jpg"] =
      [⟨"featured", "Featured:", "", []⟩, ⟨"global", "Photos:", "", ["a.jpg"]⟩] := by
  decide

/-- C3 (amended): the webpage render produces sections in the order Featured
first (regardless of configured section order), then each configured section
in declaration order, then a final global Photos section; the Featured
section contains the paths listed in `featured` that also appear in the
collected image path list, each configured section contains exactly the
images listed in its `includes` that also appear in the collected list, and
the Photos section contains every collected path not claimed by Featured or
any named section.  For featured=["a.jpg"], one section travel with
includes=["b.jpg"], and collected ["a.jpg","b.jpg","c.jpg"], the sections
are Featured, travel, Photos with exactly [a.jpg], [b.jpg], [c.jpg]. -/
theorem webpage_sections_spec (settings : Settings) (collected : List String) :
    (transformWebpage settings collected).map RenderedSection.name =
      "featured" :: settings.sections.map Prod.fst ++ ["global"] ∧
    (∀ p : String,
      p ∈ ((transformWebpage settings collected).headD emptyRenderedSection).images ↔
        p ∈ settings.featured ∧ p ∈ collected) ∧
    List.Forall₂
      (fun rs (ns : String × Section) =>
        rs.name = ns.1 ∧ rs.title = ns.2.title ∧
        rs.description = ns.2.description ∧
        ∀ p : String, p ∈ rs.images ↔ p ∈ ns.2.includes ∧ p ∈ collected)
      (((transformWebpage settings collected).drop 1).dropLast)
      settings.sections ∧
    (∀ p : String,
      p ∈ ((transformWebpage settings collected).getLastD emptyRenderedSection).images ↔
        (p ∈ collected ∧ p ∉ settings.featured ∧
          ∀ ns ∈ settings.sections, p ∉ ns.2.includes)) ∧
    transformWebpage
        ⟨"example.com", 80, [], ["a.jpg"],
          [("travel", ⟨"Travel", "", ["b.jpg"]⟩)], ["100k"]⟩
        ["a.jpg", "b.jpg", "c.jpg"] =
      [⟨"featured", "Featured:", "", ["a.jpg"]⟩,
        ⟨"travel", "Travel", "", ["b.jpg"]⟩,
        ⟨"global", "Photos:", "", ["c.jpg"]⟩] := by
  refine ⟨?_, ?_, ?_, ?_, by decide⟩
  · simp [transformWebpage, createSection]
  · intro p
    simp [transformWebpage, createSection, List.mem_filter, and_comm]
  · have hshape :
        (((transformWebpage settings collected).drop 1).dropLast) =
          settings.sections.map
            (fun ns => createSection collected ns.1 ns.2.title ns.2.description
              ns.2.includes) := by
      simp [transformWebpage]
    rw [hshape]
    refine forall2_map_self _ settings.sections fun ns _ => ?_
    refine ⟨rfl, rfl, rfl, fun p => ?_⟩
    simp [createSection, List.mem_filter, and_comm]
  · intro p
    have hlast :
        (transformWebpage settings collected).getLastD emptyRenderedSection =
          createSection collected "global" "Photos:" ""
            (collected.filter (fun q =>
              !((settings.featured ++
                (settings.sections.map (fun ns => ns.2.includes)).flatten).contains q))) := by
      rw [transformWebpage]
      exact getLastD_append_singleton _ _ _
    rw [hlast]
    simp only [createSection, List.mem_filter]
    constructor
    · rintro ⟨⟨hpc, hnot⟩, -⟩
      have hnm : p ∉ settings.featured ++
          (settings.sections.map (fun ns => ns.2.includes)).flatten := by
        simpa using hnot
      rw [List.mem_append] at hnm
      push_neg at hnm
      obtain ⟨hnf, hnfl⟩ := hnm
      refine ⟨hpc, hnf, fun ns hns hinc => ?_⟩
      exact hnfl (List.mem_flatten.mpr
        ⟨ns.2.includes, List.mem_map.mpr ⟨ns, hns, rfl⟩, hinc⟩)
    · rintro ⟨hpc, hnf, hns⟩
      have hnm : p ∉ settings.featured ++
          (settings.sections.map (fun ns => ns.2.includes)).flatten := by
        rw [List.mem_append]
        rintro (hf | hfl)
        · exact hnf hf
        · obtain ⟨l, hl, hinc⟩ := List.mem_flatten.mp hfl
          obtain ⟨ns, hmem, rfl⟩ := List.mem_map.mp hl
          exact hns ns hmem hinc
      refine ⟨⟨hpc, by simpa using hnm⟩, by simpa using hpc⟩

theorem foldl_append_urlEntries (f : String → String) :
    ∀ (l : List String) (acc : String),
      l.foldl (fun a x => a ++ f x) acc = acc ++ joinStrList (l.map f) := by
  intro l
  induction l with
  | nil =>
    intro acc
    simp [joinStrList, String.append_empty]
  | cons x xs ih =>
    intro acc
    simp only [List.foldl_cons, List.map_cons, joinStrList, ih,
      String.append_assoc]

theorem map_mk_data :
    ∀ l : List String, (l.map String.data).map (fun d => (⟨d⟩ : String)) = l := by
  intro l
  induction l with
  | nil => rfl
  | cons a as ih => simp only [List.map_cons, ih]

theorem jsSplit_jsJoin (paths : List String) (hne : paths ≠ [])
    (hsem : ∀ p ∈ paths, (';' : Char) ∉ p.data) :
    jsSplit ';' (jsJoin ';' paths) = paths := by
  unfold jsSplit jsJoin
  have hx : ∀ d ∈ paths.map String.data, (';' : Char) ∉ d := by
    intro d hd
    obtain ⟨p, hp, rfl⟩ := List.mem_map.mp hd
    exact hsem p hp
  have hls : paths.map String.data ≠ [] := by simpa using hne
  have hsplit : ((⟨[';'].intercalate (paths.map String.data)⟩ : String)).data
      = [';'].intercalate (paths.map String.data) := rfl
  rw [hsplit, List.splitOn_intercalate (paths.map String.data) ';' hx hls]
  exact map_mk_data paths

theorem sitemapTransform_eq (resource : SitemapResource)
    (siteName nowDate : String) :
    sitemapTransform resource siteName nowDate =
      sitemapPreamble ++ joinStrList (SITEMAP.map (urlEntry siteName nowDate)) ++
        joinStrList ((jsSplit ';' resource.imagePaths).map
          (fun p => urlEntry siteName nowDate ("image/" ++ p))) ++
        "</urlset>" := by
  show (jsSplit ';' resource.imagePaths).foldl
      (fun acc imagePath => acc ++ urlEntry siteName nowDate ("image/" ++ imagePath))
      (SITEMAP.foldl (fun acc url => acc ++ urlEntry siteName nowDate url)
        sitemapPreamble) ++ "</urlset>" = _
  rw [foldl_append_urlEntries, foldl_append_urlEntries]

set_option maxRecDepth 8192 in
/-- C9 (counterexample to the claim as stated): the transform splits the
joined resource string on ';', so a collected path containing a semicolon
produces two `<url>` image entries instead of "one entry per collected
image path" (and neither entry's loc is `image/a;b.jpg`); similarly an
empty collected list produces one bogus entry (see C10). -/
theorem sitemap_counterexample :
    jsSplit ';' (sitemapGetResource ["a;b.jpg"]).imagePaths = ["a", "b.jpg"] ∧
    sitemapTransform (sitemapGetResource ["a;b.jpg"]) "example.com" "2026-01-01" =
      sitemapPreamble ++
        joinStrList (SITEMAP.map (urlEntry "example.com" "2026-01-01")) ++
        joinStrList
          [urlEntry "example.com" "2026-01-01" ("image/" ++ "a"),
            urlEntry "example.com" "2026-01-01" ("image/" ++ "b.jpg")] ++
        "</urlset>" :=
  ⟨rfl, rfl⟩

/-- C9 (amended): for every nonempty collected image path list whose paths
contain no ';' and for every site name and date, the sitemap transform
produces the fixed preamble, one `<url>` entry per static site page, then
one `<url>` entry per collected image path with
`<loc>https://<site-name>/image/<path></loc>`, each entry carrying the
current date as `<lastmod>`, followed by the closing `</urlset>` tag; in
particular the entry for `a.jpg` on `example.com` carries
`<loc>https://example.com/image/a.jpg</loc>`. -/
theorem sitemap_spec (collected : List String) (siteName nowDate : String)
    (hne : collected ≠ [])
    (hsem : ∀ p ∈ collected, (';' : Char) ∉ p.data) :
    sitemapTransform (sitemapGetResource collected) siteName nowDate =
      sitemapPreamble ++ joinStrList (SITEMAP.map (urlEntry siteName nowDate)) ++
        joinStrList (collected.map
          (fun p => urlEntry siteName nowDate ("image/" ++ p))) ++
        "</urlset>" ∧
    urlEntry "example.com" nowDate ("image/" ++ "a.jpg") =
      "<url>\n<loc>https://example.com/image/a.jpg</loc>\n<lastmod>" ++
        nowDate ++ "</lastmod>\n</url>\n" := by
  constructor
  · rw [sitemapTransform_eq]
    rw [show (sitemapGetResource collected).imagePaths = jsJoin ';' collected
        from rfl]
    rw [jsSplit_jsJoin collected hne hsem]
  · rfl

/-- Witness for C9 (amended): the spec evaluated at collected = ["a.jpg"],
site name example.com and a concrete date. -/
theorem sitemap_spec_witness :
    sitemapTransform (sitemapGetResource ["a.jpg"]) "example.com" "2026-02-03" =
      sitemapPreamble ++
        joinStrList (SITEMAP.map (urlEntry "example.com" "2026-02-03")) ++
        joinStrList (["a.jpg"].map
          (fun p => urlEntry "example.com" "2026-02-03" ("image/" ++ p))) ++
        "</urlset>" :=
  (sitemap_spec ["a.jpg"] "example.com" "2026-02-03" (by decide) (by decide)).1

/-- C10: with an empty collected image path list the joined resource string
is empty, splitting it on ';' yields one empty segment, and the generated
sitemap therefore contains exactly one image `<url>` entry, whose loc is
`https://<site-name>/image/` (a URL referring to no image), in addition to
the static-page entries. -/
theorem sitemap_empty_collected (siteName nowDate : String) :
    (sitemapGetResource []).imagePaths = "" ∧
    jsSplit ';' "" = [""] ∧
    sitemapTransform (sitemapGetResource []) siteName nowDate =
      sitemapPreamble ++ joinStrList (SITEMAP.map (urlEntry siteName nowDate)) ++
        urlEntry siteName nowDate ("image/" ++ "") ++ "</urlset>" ∧
    urlEntry "example.com" nowDate ("image/" ++ "") =
      "<url>\n<loc>https://example.com/image/</loc>\n<lastmod>" ++ nowDate ++
        "</lastmod>\n</url>\n" := by
  refine ⟨rfl, rfl, ?_, rfl⟩
  rw [sitemapTransform_eq]
  rw [show jsSplit ';' (sitemapGetResource ([] : List String)).imagePaths = [""]
      from rfl]
  simp only [List.map_cons, List.map_nil, joinStrList, String.append_empty]

/-- C5: `compressAndGetImageCachePath` returns immediately without invoking
the external compression operation whenever the cache file for that
(path, size) pair already exists (no re-validation against the original),
and two successive calls with the same arguments invoke the external
compression operation at most once in total. -/
theorem image_cache_at_most_once (cacheDir : List Char)
    (files : List (List Char)) (p sz : List Char) :
    (getImageCachePath cacheDir p sz ∈ files →
      compressAndGetImageCachePath cacheDir files p sz =
        ((getImageCachePath cacheDir p sz).drop (cacheDir.length + 1),
          files, 0)) ∧
    (compressAndGetImageCachePath cacheDir files p sz).2.2 +
      (compressAndGetImageCachePath cacheDir
          (compressAndGetImageCachePath cacheDir files p sz).2.1 p sz).2.2
      ≤ 1 := by
  constructor
  · intro h
    simp [compressAndGetImageCachePath, h]
  · by_cases h : getImageCachePath cacheDir p sz ∈ files
    · simp [compressAndGetImageCachePath, h]
    · simp [compressAndGetImageCachePath, h]

/-- Witness for C5: with the cache file already on disk the call performs no
compression and returns the cache-relative path. -/
theorem image_cache_at_most_once_witness :
    compressAndGetImageCachePath ("cache".data)
        [getImageCachePath ("cache".data) ("x/y.jpg".data) ("100k".data)]
        ("x/y.jpg".data) ("100k".data) =
      ((getImageCachePath ("cache".data) ("x/y.jpg".data) ("100k".data)).drop
          ("cache".data.length + 1),
        [getImageCachePath ("cache".data) ("x/y.jpg".data) ("100k".data)], 0) :=
  (image_cache_at_most_once ("cache".data)
      [getImageCachePath ("cache".data) ("x/y.jpg".data) ("100k".data)]
      ("x/y.jpg".data) ("100k".data)).1 (List.mem_cons_self _ _)

theorem not_mem_of_mem_splitOnP {α : Type} (p : α → Bool) :
    ∀ (xs seg : List α), seg ∈ xs.splitOnP p → ∀ a ∈ seg, ¬(p a = true) := by
  intro xs
  induction xs with
  | nil =>
    intro seg hseg a ha
    rw [List.splitOnP_nil] at hseg
    rcases List.mem_singleton.mp hseg with rfl
    simp at ha
  | cons x t ih =>
    intro seg hseg a ha
    rw [List.splitOnP_cons] at hseg
    by_cases hx : p x = true
    · rw [if_pos hx] at hseg
      rcases List.mem_cons.mp hseg with h0 | h0
      · subst h0
        simp at ha
      · exact ih seg h0 a ha
    · rw [if_neg hx] at hseg
      rcases hsp : t.splitOnP p with _ | ⟨h0, t0⟩
      · exact absurd hsp (List.splitOnP_ne_nil p t)
      · rw [hsp] at hseg
        rw [List.modifyHead_cons] at hseg
        rcases List.mem_cons.mp hseg with h1 | h1
        · subst h1
          rcases List.mem_cons.mp ha with h2 | h2
          · subst h2
            exact hx
          · refine ih h0 ?_ a h2
            rw [hsp]
            exact List.mem_cons_self _ _
        · refine ih seg ?_ a ha
          rw [hsp]
          exact List.mem_cons.mpr (Or.inr h1)

theorem not_mem_of_mem_splitOn {α : Type} [DecidableEq α] (x : α)
    (l seg : List α) (h : seg ∈ l.splitOn x) : x ∉ seg := by
  intro hx
  have hp := not_mem_of_mem_splitOnP (fun a => a == x) l seg (by
    rw [List.splitOn] at h
    exact h) x hx
  simp at hp

theorem splitOn_ne_nil {α : Type} [DecidableEq α] (x : α) (l : List α) :
    l.splitOn x ≠ [] := by
  rw [List.splitOn]
  exact List.splitOnP_ne_nil _ l

theorem intercalate_singletonL {α : Type} (x : α) (a : List α) :
    [x].intercalate [a] = a := by
  simp [List.intercalate]

theorem intercalate_cons_consL {α : Type} (x : α) (a b : List α)
    (t : List (List α)) :
    [x].intercalate (a :: b :: t) = a ++ x :: [x].intercalate (b :: t) := by
  simp [List.intercalate, List.intersperse_cons_cons]

theorem intercalate_append_ne_nil {α : Type} (x : α) :
    ∀ (xs ys : List (List α)), xs ≠ [] → ys ≠ [] →
      [x].intercalate (xs ++ ys) =
        [x].intercalate xs ++ x :: [x].intercalate ys := by
  intro xs
  induction xs with
  | nil =>
    intro ys h
    exact absurd rfl h
  | cons a t ih =>
    intro ys _ hys
    cases t with
    | nil =>
      cases ys with
      | nil => exact absurd rfl hys
      | cons y ts =>
        rw [List.singleton_append, intercalate_cons_consL,
          intercalate_singletonL]
    | cons b t2 =>
      show [x].intercalate (a :: b :: (t2 ++ ys)) =
        [x].intercalate (a :: b :: t2) ++ x :: [x].intercalate ys
      rw [intercalate_cons_consL, intercalate_cons_consL,
        show b :: (t2 ++ ys) = (b :: t2) ++ ys from rfl,
        ih ys (by simp) hys]
      simp [List.append_assoc]

theorem head?_intercalate_cons {α : Type} (x : α) (c : List α)
    (t : List (List α)) (hc : c ≠ []) :
    ([x].intercalate (c :: t)).head? = c.head? := by
  cases t with
  | nil => rw [intercalate_singletonL]
  | cons b t2 =>
    rw [intercalate_cons_consL]
    cases c with
    | nil => exact absurd rfl hc
    | cons a c0 => rfl

theorem intercalate_injOn {α : Type} [DecidableEq α] (x : α)
    (ls1 ls2 : List (List α))
    (h1 : ∀ l ∈ ls1, x ∉ l) (h2 : ∀ l ∈ ls2, x ∉ l)
    (hn1 : ls1 ≠ []) (hn2 : ls2 ≠ [])
    (heq : [x].intercalate ls1 = [x].intercalate ls2) : ls1 = ls2 := by
  have e1 := List.splitOn_intercalate ls1 x h1 hn1
  have e2 := List.splitOn_intercalate ls2 x h2 hn2
  rw [← e1, ← e2, heq]

theorem dropLast_append_getLastD {α : Type} :
    ∀ (l : List α) (d : α), l ≠ [] → l.dropLast ++ [l.getLastD d] = l := by
  intro l
  induction l with
  | nil =>
    intro d h
    exact absurd rfl h
  | cons a t ih =>
    intro d _
    cases t with
    | nil => rfl
    | cons b t2 =>
      have h2 := ih a (by simp)
      rw [List.getLastD_cons]
      rw [show (a :: b :: t2).dropLast = a :: (b :: t2).dropLast from rfl]
      rw [List.cons_append, h2]

theorem getLastD_mem {α : Type} (l : List α) (d : α) (h : l ≠ []) :
    l.getLastD d ∈ l := by
  have h2 := dropLast_append_getLastD l d h
  have h3 : l.getLastD d ∈ l.dropLast ++ [l.getLastD d] :=
    List.mem_append.mpr (Or.inr (List.mem_singleton.mpr rfl))
  rwa [h2] at h3

theorem basenameM_mem (p : List Char) : basenameM p ∈ p.splitOn '/' :=
  getLastD_mem _ [] (splitOn_ne_nil '/' p)

theorem encodeList_sep_free (p sz : List Char) (hp : canonicalPath p)
    (hs : ('_' : Char) ∉ sz) : ∀ l ∈ encodeList p sz, ('_' : Char) ∉ l := by
  intro l hl
  unfold encodeList at hl
  by_cases hlen : (p.splitOn '/').length ≤ 1
  · rw [if_pos hlen] at hl
    simp only [List.mem_cons, List.mem_singleton, List.not_mem_nil] at hl
    rcases hl with rfl | rfl | h0
    · exact List.not_mem_nil _
    · exact hs
    · rcases h0 with rfl | h0
      · exact (hp _ (basenameM_mem p)).2.1
      · exact h0.elim
  · rw [if_neg hlen] at hl
    rcases List.mem_append.mp hl with h1 | h1
    · exact (hp _ ((List.dropLast_sublist (p.splitOn '/')).subset h1)).2.1
    · simp only [List.mem_cons, List.not_mem_nil] at h1
      rcases h1 with rfl | h1
      · exact hs
      · rcases h1 with rfl | h1
        · exact (hp _ (basenameM_mem p)).2.1
        · exact h1.elim

theorem encodeList_ne_nil (p sz : List Char) : encodeList p sz ≠ [] := by
  unfold encodeList
  split
  · simp
  · simp

theorem getImageCachePath_encode (cacheDir p sz : List Char)
    (hp : canonicalPath p) :
    getImageCachePath cacheDir p sz =
      cacheDir ++ '/' :: ['_'].intercalate (encodeList p sz) := by
  by_cases hlen : (p.splitOn '/').length ≤ 1
  · have hds : dirString p = ['.'] := by
      rw [dirString, dirnameM, if_pos hlen]
      rw [show (['.'] : List Char).splitOn '/' = [['.']] from by decide]
      rw [intercalate_singletonL]
    have hstrip : dirStringWithoutLeadingDot p = [] := by
      rw [dirStringWithoutLeadingDot, hds]
      rfl
    rw [getImageCachePath, hstrip, encodeList, if_pos hlen]
    rw [intercalate_cons_consL, intercalate_cons_consL, intercalate_singletonL]
  · have hne : p.splitOn '/' ≠ [] := splitOn_ne_nil '/' p
    obtain ⟨c, rest, hP⟩ : ∃ c rest, p.splitOn '/' = c :: rest := by
      rcases h : p.splitOn '/' with _ | ⟨c, rest⟩
      · exact absurd h hne
      · exact ⟨c, rest, rfl⟩
    have hcmem : c ∈ p.splitOn '/' := by
      rw [hP]
      exact List.mem_cons_self _ _
    have hrest : rest ≠ [] := by
      intro h0
      rw [hP, h0] at hlen
      simp at hlen
    have hdl_ne : (p.splitOn '/').dropLast ≠ [] := by
      rw [hP]
      cases rest with
      | nil => exact absurd rfl hrest
      | cons r t => simp
    have hsl : ∀ l ∈ (p.splitOn '/').dropLast, ('/' : Char) ∉ l := fun l hl =>
      not_mem_of_mem_splitOn '/' p l
        ((List.dropLast_sublist (p.splitOn '/')).subset hl)
    have hds : dirString p = ['_'].intercalate (p.splitOn '/').dropLast := by
      rw [dirString, dirnameM, if_neg hlen]
      rw [List.splitOn_intercalate _ '/' hsl hdl_ne]
    have hchead : (dirString p).head? = c.head? := by
      rw [hds, hP]
      rw [show (c :: rest).dropLast = c :: rest.dropLast from by
        cases rest with
        | nil => exact absurd rfl hrest
        | cons r t => rfl]
      exact head?_intercalate_cons '_' c rest.dropLast (hp c hcmem).1
    have hnostrip : dirStringWithoutLeadingDot p = dirString p := by
      rw [dirStringWithoutLeadingDot]
      have hcond : ¬((dirString p).head? = some '.') := by
        rw [hchead]
        exact (hp c hcmem).2.2
      rw [if_neg hcond]
    rw [getImageCachePath, hnostrip, hds, encodeList, if_neg hlen]
    rw [intercalate_append_ne_nil '_' _ _ hdl_ne (by simp)]
    rw [intercalate_cons_consL, intercalate_singletonL]

theorem encodeList_inj (p1 s1 p2 s2 : List Char)
    (hp1 : canonicalPath p1) (hp2 : canonicalPath p2)
    (heq : encodeList p1 s1 = encodeList p2 s2) : p1 = p2 ∧ s1 = s2 := by
  have hne1 : p1.splitOn '/' ≠ [] := splitOn_ne_nil '/' p1
  have hne2 : p2.splitOn '/' ≠ [] := splitOn_ne_nil '/' p2
  have hrec1 := List.intercalate_splitOn p1 '/'
  have hrec2 := List.intercalate_splitOn p2 '/'
  unfold encodeList at heq
  by_cases hl1 : (p1.splitOn '/').length ≤ 1
  · by_cases hl2 : (p2.splitOn '/').length ≤ 1
    · rw [if_pos hl1, if_pos hl2] at heq
      injection heq with h1 h2
      injection h2 with h3 h4
      injection h4 with h5 h6
      have hone1 : p1.splitOn '/' = [basenameM p1] := by
        rcases h : p1.splitOn '/' with _ | ⟨a, t⟩
        · exact absurd h hne1
        · cases t with
          | nil =>
            rw [basenameM, h]
            rfl
          | cons b t2 =>
            rw [h] at hl1
            simp only [List.length_cons] at hl1
            omega
      have hone2 : p2.splitOn '/' = [basenameM p2] := by
        rcases h : p2.splitOn '/' with _ | ⟨a, t⟩
        · exact absurd h hne2
        · cases t with
          | nil =>
            rw [basenameM, h]
            rfl
          | cons b t2 =>
            rw [h] at hl2
            simp only [List.length_cons] at hl2
            omega
      refine ⟨?_, h3⟩
      rw [← hrec1, ← hrec2, hone1, hone2, h5]
    · rw [if_pos hl1, if_neg hl2] at heq
      have hlen3 : (3 : Nat) = (p2.splitOn '/').dropLast.length + 2 := by
        have h0 := congrArg List.length heq
        simp only [List.length_append, List.length_cons, List.length_nil] at h0
        omega
      obtain ⟨d, hd⟩ : ∃ d, (p2.splitOn '/').dropLast = [d] := by
        rcases h : (p2.splitOn '/').dropLast with _ | ⟨d, t⟩
        · rw [h] at hlen3
          simp only [List.length_nil] at hlen3
          exact absurd hlen3 (by omega)
        · cases t with
          | nil => exact ⟨d, rfl⟩
          | cons e t2 =>
            rw [h] at hlen3
            simp only [List.length_cons] at hlen3
            exact absurd hlen3 (by omega)
      rw [hd, List.singleton_append] at heq
      injection heq with h1 h2
      have hdmem : d ∈ p2.splitOn '/' := by
        refine (List.dropLast_sublist (p2.splitOn '/')).subset ?_
        rw [hd]
        exact List.mem_singleton.mpr rfl
      exact absurd h1.symm (hp2 d hdmem).1
  · by_cases hl2 : (p2.splitOn '/').length ≤ 1
    · rw [if_neg hl1, if_pos hl2] at heq
      have hlen3 : (p1.splitOn '/').dropLast.length + 2 = (3 : Nat) := by
        have h0 := congrArg List.length heq
        simp only [List.length_append, List.length_cons, List.length_nil] at h0
        omega
      obtain ⟨d, hd⟩ : ∃ d, (p1.splitOn '/').dropLast = [d] := by
        rcases h : (p1.splitOn '/').dropLast with _ | ⟨d, t⟩
        · rw [h] at hlen3
          simp only [List.length_nil] at hlen3
          exact absurd hlen3 (by omega)
        · cases t with
          | nil => exact ⟨d, rfl⟩
          | cons e t2 =>
            rw [h] at hlen3
            simp only [List.length_cons] at hlen3
            exact absurd hlen3 (by omega)
      rw [hd, List.singleton_append] at heq
      injection heq with h1 h2
      have hdmem : d ∈ p1.splitOn '/' := by
        refine (List.dropLast_sublist (p1.splitOn '/')).subset ?_
        rw [hd]
        exact List.mem_singleton.mpr rfl
      exact absurd h1 (hp1 d hdmem).1
    · rw [if_neg hl1, if_neg hl2] at heq
      have hlend : (p1.splitOn '/').dropLast.length =
          (p2.splitOn '/').dropLast.length := by
        have h0 := congrArg List.length heq
        simp only [List.length_append, List.length_cons, List.length_nil] at h0
        omega
      obtain ⟨hdl, htail⟩ := List.append_inj heq hlend
      injection htail with h1 h2
      injection h2 with h3 h4
      refine ⟨?_, h1⟩
      have hparts : p1.splitOn '/' = p2.splitOn '/' := by
        rw [← dropLast_append_getLastD (p1.splitOn '/') [] hne1,
          ← dropLast_append_getLastD (p2.splitOn '/') [] hne2]
        rw [show (p1.splitOn '/').getLastD [] = basenameM p1 from rfl,
          show (p2.splitOn '/').getLastD [] = basenameM p2 from rfl]
        rw [hdl, h3]
      rw [← hrec1, ← hrec2, hparts]

set_option maxRecDepth 8192 in
/-- C4 (counterexample to the claim as stated): the mapping is not injective
on all distinct (imagePath, size) pairs — `"a.jpg"` and `"./a.jpg"` are
distinct path strings whose cache paths coincide, because `path.dirname`
yields `"."` for both and the flattened directory loses the distinction
after the leading dot is stripped. -/
theorem cachePath_injectivity_counterexample :
    getImageCachePath ("cache".data) ("a.jpg".data) ("100k".data) =
      getImageCachePath ("cache".data) ("./a.jpg".data) ("100k".data) ∧
    ("a.jpg".data ≠ "./a.jpg".data) := by
  refine ⟨by decide, by decide⟩

/-- C4 (amended): `getImageCachePath(imagePath, size)` deterministically
maps the image's directory component, with path separators replaced by `'_'`
and a single leading `'.'` stripped, to
`<cacheDir>/<flattenedDir>_<size>_<fileName>` (so `("x/y.jpg","100k")` maps
to `<cacheDir>/x_100k_y.jpg`); and the mapping is injective on canonical
inputs: distinct (imagePath, size) pairs where each path is a `/`-separated
sequence of nonempty components none of which contains `'_'` or starts with
`'.'`, and each size contains no `'_'`, always yield distinct cache paths.
(Outside this domain distinct pairs can collide, e.g. `"a.jpg"` vs
`"./a.jpg"`, underscores in directory names, or underscores in sizes.) -/
theorem cachePath_spec :
    (∀ cacheDir : List Char,
      getImageCachePath cacheDir ("x/y.jpg".data) ("100k".data) =
        cacheDir ++ ("/x_100k_y.jpg".data)) ∧
    (∀ cacheDir p1 s1 p2 s2 : List Char,
      canonicalPath p1 → canonicalPath p2 →
      ('_' : Char) ∉ s1 → ('_' : Char) ∉ s2 →
      getImageCachePath cacheDir p1 s1 = getImageCachePath cacheDir p2 s2 →
      p1 = p2 ∧ s1 = s2) := by
  constructor
  · intro cacheDir
    have h : ('/' :: (dirStringWithoutLeadingDot ("x/y.jpg".data) ++
        '_' :: ("100k".data ++ '_' :: basenameM ("x/y.jpg".data)))) =
        "/x_100k_y.jpg".data := by decide
    rw [getImageCachePath]
    exact congrArg (fun l => cacheDir ++ l) h
  · intro cacheDir p1 s1 p2 s2 hp1 hp2 hs1 hs2 heq
    rw [getImageCachePath_encode cacheDir p1 s1 hp1,
      getImageCachePath_encode cacheDir p2 s2 hp2] at heq
    have htail := List.append_cancel_left heq
    injection htail with h1 h2
    have henc := intercalate_injOn '_' (encodeList p1 s1) (encodeList p2 s2)
      (encodeList_sep_free p1 s1 hp1 hs1) (encodeList_sep_free p2 s2 hp2 hs2)
      (encodeList_ne_nil p1 s1) (encodeList_ne_nil p2 s2) h2
    exact encodeList_inj p1 s1 p2 s2 hp1 hp2 henc

/-- Witness for C4 (amended): the formula instance evaluated at a concrete
cache directory, and the injectivity applied to a concrete canonical pair. -/
theorem cachePath_spec_witness :
    getImageCachePath ("cache".data) ("x/y.jpg".data) ("100k".data) =
      "cache".data ++ ("/x_100k_y.jpg".data) ∧
    (("x/y.jpg".data : List Char) = "x/y.jpg".data ∧
      ("100k".data : List Char) = "100k".data) :=
  ⟨cachePath_spec.1 ("cache".data),
    cachePath_spec.2 ("cache".data) ("x/y.jpg".data) ("100k".data)
      ("x/y.jpg".data) ("100k".data) (by decide) (by decide) (by decide)
      (by decide) rfl⟩

end NodeGallery
